import Mathlib

/-!
Shallow embedding of `albumentations/core/utils.py` (annotation-format adapter).

Rows of an annotation collection are `List V` (coordinate cells followed by
appended label cells); annotation fields hold `List (List V)`, label fields
hold flat columns `List V`.  The caller's `data` dictionary is an association
list from field names to entries.  Python methods mutate the dictionary in
place and may raise; each dict-level operation is therefore embedded as a
function returning the final dictionary state together with an optional
raised exception (`DataMap V × Option PyError`), so that partial mutation at
the moment an exception is raised stays observable.
-/

set_option autoImplicit false

namespace Albu

universe u

variable {V : Type u}

/-- Python exceptions that the embedded code can raise. -/
inductive PyError where
  | keyError (key : String)
  | typeError (msg : String)
  | valueError (msg : String)
  | indexError (msg : String)
  | runtimeError (msg : String)
  | attributeError (msg : String)
  deriving DecidableEq

/-- Image argument of `get_shape`: a numpy array (shape known), a torch
tensor (shape known), or any other Python object (only its type name kept). -/
inductive Image where
  | ndarray (shape : List Nat)
  | tensor (shape : List Nat)
  | other (typename : String)
  deriving DecidableEq

/-- One value of the caller's `data` dictionary: the image, an annotation
field holding a collection of rows, or a label field holding a flat column. -/
inductive Entry (V : Type u) where
  | img (i : Image)
  | rows (r : List (List V))
  | col (c : List V)
  deriving DecidableEq

/-- First entry bound to `key` in an association list. -/
def lookupEntry : List (String × Entry V) → String → Option (Entry V)
  | [], _ => none
  | (k, v) :: rest, key => if k = key then some v else lookupEntry rest key

/-- In-place update `data[key] = val`: overwrite the first binding of `key`,
or append a new binding when `key` is absent. -/
def setEntry : List (String × Entry V) → String → Entry V → List (String × Entry V)
  | [], key, val => [(key, val)]
  | (k, v) :: rest, key, val =>
    if k = key then (k, val) :: rest else (k, v) :: setEntry rest key val

/-- The caller's `data` dictionary. -/
structure DataMap (V : Type u) where
  entries : List (String × Entry V)
  deriving DecidableEq

/-- Python `data[key]` as an `Option`. -/
def DataMap.get (m : DataMap V) (key : String) : Option (Entry V) :=
  lookupEntry m.entries key

/-- Python `data[key] = val`. -/
def DataMap.set (m : DataMap V) (key : String) (val : Entry V) : DataMap V :=
  ⟨setEntry m.entries key val⟩

/-- Python `len(data[key])`: `KeyError` when the key is absent; images are
not used as sized fields in this slice, so they are mapped to an error. -/
def DataMap.len (m : DataMap V) (key : String) : Except PyError Nat :=
  match m.get key with
  | some (.rows r) => .ok r.length
  | some (.col c) => .ok c.length
  | some (.img _) => .error (.typeError key)
  | none => .error (.keyError key)

/-- Read `data[key]` as an annotation-row collection. -/
def DataMap.getRows (m : DataMap V) (key : String) : Except PyError (List (List V)) :=
  match m.get key with
  | some (.rows r) => .ok r
  | some _ => .error (.typeError key)
  | none => .error (.keyError key)

/-- Read `data[key]` as a label column. -/
def DataMap.getCol (m : DataMap V) (key : String) : Except PyError (List V) :=
  match m.get key with
  | some (.col c) => .ok c
  | some _ => .error (.typeError key)
  | none => .error (.keyError key)

/-- Python list indexing `l[i]`, including negative indices;
raises `IndexError` out of range. -/
def pyIndex (l : List V) (i : Int) : Except PyError V :=
  let j : Int := if i < 0 then i + l.length else i
  if 0 ≤ j then
    match l.get? j.toNat with
    | some v => .ok v
    | none => .error (.indexError "list index out of range")
  else .error (.indexError "list index out of range")

/-- Translation of `get_shape`: `rows, cols = img.shape[:2]` for a numpy
array, `img.shape[-2:]` for a torch tensor, else a `RuntimeError` whose
message names the offending type. -/
def get_shape : Image → Except PyError (List Nat)
  | .ndarray shape =>
    match shape with
    | h :: w :: _ => .ok [h, w]
    | _ => .error (.valueError "not enough values to unpack")
  | .tensor shape => .ok (shape.drop (shape.length - 2))
  | .other t =>
    .error (.runtimeError
      ("Albumentations supports only numpy.ndarray and torch.Tensor data type for image. Got: "
        ++ t))

/-- Attribute access `img.shape` (used by `preprocess`, which reads the raw
shape instead of calling `get_shape`). -/
def Image.shape : Image → Except PyError (List Nat)
  | .ndarray s => .ok s
  | .tensor s => .ok s
  | .other _ => .error (.attributeError "shape")

/-- Tuple unpacking `rows, cols = l` for a two-element sequence. -/
def unpack2 (l : List Nat) : Except PyError (Nat × Nat) :=
  match l with
  | [a, b] => .ok (a, b)
  | _ => .error (.valueError "not enough values to unpack")

/-- Translation of `Params.__init__`: the coordinate-format name and the
optional ordered list of label-field names. -/
structure Params where
  format : String
  label_fields : Option (List String)
  deriving DecidableEq

/-- Translation of `DataProcessor.__init__`:
`data_fields = [default_data_name]` plus every additional-target key whose
value equals the default data name. -/
def mkDataFields (default_data_name : String)
    (additional_targets : Option (List (String × String))) : List String :=
  default_data_name ::
    (match additional_targets with
     | none => []
     | some ts => (ts.filter (fun kv => kv.2 = default_data_name)).map Prod.fst)

/-- Translation of the abstract `DataProcessor`: the configuration
(`params`, `data_fields`) together with the abstract per-kind operations
that concrete subclasses must supply (`check`, the two coordinate
conversions, `filter`, and the internal/original representation adapters). -/
structure DataProcessor (V : Type u) where
  params : Params
  data_fields : List String
  check : List (List V) → Nat → Nat → Except PyError Unit
  convert_to_albumentations : List (List V) → Nat → Nat → Except PyError (List (List V))
  convert_from_albumentations : List (List V) → Nat → Nat → Except PyError (List (List V))
  filter : List (List V) → Nat → Nat → String → List (List V)
  convert_to_internal_type : List (List V) → List (List V)
  convert_to_original_type : List (List V) → List (List V)

/-- Translation of `DataProcessor.check_and_convert`. -/
def DataProcessor.check_and_convert (p : DataProcessor V) (data : List (List V))
    (rows cols : Nat) (direction : String) : Except PyError (List (List V)) :=
  if p.params.format = "albumentations" then
    match p.check data rows cols with
    | .ok _ => .ok data
    | .error e => .error e
  else if direction = "to" then p.convert_to_albumentations data rows cols
  else if direction = "from" then p.convert_from_albumentations data rows cols
  else
    .error (.valueError ("Invalid direction. Must be `to` or `from`. Got `" ++ direction ++ "`"))

/-- Inner loop of `add_label_fields_to_data` for one data field: for each
label field in order, compare lengths (raising a bare `ValueError` on
mismatch) and append each label value as a new trailing cell of the
corresponding row. -/
def addLabelLoop (data : DataMap V) (dataName : String) :
    List String → DataMap V × Option PyError
  | [] => (data, none)
  | field :: rest =>
    match data.len dataName with
    | .error e => (data, some e)
    | .ok n =>
      match data.len field with
      | .error e => (data, some e)
      | .ok m =>
        if n = m then
          match data.getRows dataName, data.getCol field with
          | .ok r, .ok c =>
            addLabelLoop
              (data.set dataName (.rows (List.zipWith (fun d v => d ++ [v]) r c)))
              dataName rest
          | .error e, _ => (data, some e)
          | _, .error e => (data, some e)
        else (data, some (.valueError ""))

/-- Outer loop of `add_label_fields_to_data` over `data_fields`. -/
def addFieldsLoop (data : DataMap V) (lfs : List String) :
    List String → DataMap V × Option PyError
  | [] => (data, none)
  | dn :: rest =>
    match addLabelLoop data dn lfs with
    | (data1, none) => addFieldsLoop data1 lfs rest
    | r => r

/-- Translation of `DataProcessor.add_label_fields_to_data`. -/
def DataProcessor.add_label_fields_to_data (p : DataProcessor V) (data : DataMap V) :
    DataMap V × Option PyError :=
  match p.params.label_fields with
  | none => (data, none)
  | some lfs => addFieldsLoop data lfs p.data_fields

/-- Translation of the list comprehension
`[bbox[-label_fields_len + idx] for bbox in data[data_name]]`. -/
def extractColumn (rows : List (List V)) (k idx : Nat) : Except PyError (List V) :=
  match rows with
  | [] => .ok []
  | bbox :: rest =>
    match pyIndex bbox (-(k : Int) + idx), extractColumn rest k idx with
    | .ok v, .ok vs => .ok (v :: vs)
    | .error e, _ => .error e
    | _, .error e => .error e

/-- Inner loop of `remove_label_fields_from_data` for one data field:
for each `(idx, field)` in `enumerate(label_fields)`, write the extracted
trailing column back as `data[field]`. -/
def removeInnerLoop (data : DataMap V) (dataName : String) (k : Nat) :
    List (Nat × String) → DataMap V × Option PyError
  | [] => (data, none)
  | (idx, field) :: rest =>
    match data.getRows dataName with
    | .error e => (data, some e)
    | .ok r =>
      match extractColumn r k idx with
      | .error e => (data, some e)
      | .ok c => removeInnerLoop (data.set field (.col c)) dataName k rest

/-- Body of `remove_label_fields_from_data` for one data field: split the
label columns out, then (when `label_fields` is non-empty) truncate every
row with `d[:-label_fields_len]`. -/
def removeFromField (data : DataMap V) (dataName : String) (lfs : List String) :
    DataMap V × Option PyError :=
  let k := lfs.length
  match removeInnerLoop data dataName k lfs.enum with
  | (data1, none) =>
    if k ≠ 0 then
      match data1.getRows dataName with
      | .error e => (data1, some e)
      | .ok r => (data1.set dataName (.rows (r.map (fun d => d.take (d.length - k)))), none)
    else (data1, none)
  | r => r

/-- Outer loop of `remove_label_fields_from_data` over `data_fields`. -/
def removeFieldsLoop (data : DataMap V) (lfs : List String) :
    List String → DataMap V × Option PyError
  | [] => (data, none)
  | dn :: rest =>
    match removeFromField data dn lfs with
    | (data1, none) => removeFieldsLoop data1 lfs rest
    | r => r

/-- Translation of `DataProcessor.remove_label_fields_from_data`. -/
def DataProcessor.remove_label_fields_from_data (p : DataProcessor V) (data : DataMap V) :
    DataMap V × Option PyError :=
  match p.params.label_fields with
  | none => (data, none)
  | some lfs => removeFieldsLoop data lfs p.data_fields

/-- Loop of `preprocess` over `data_fields`: store
`convert_to_internal_type(data[data_name])` back into the dictionary, then
store `check_and_convert(..., direction="to")` over it. -/
def convertLoop (p : DataProcessor V) (data : DataMap V) (rows cols : Nat) :
    List String → DataMap V × Option PyError
  | [] => (data, none)
  | dn :: rest =>
    match data.getRows dn with
    | .error e => (data, some e)
    | .ok r =>
      let r1 := p.convert_to_internal_type r
      let data1 := data.set dn (.rows r1)
      match p.check_and_convert r1 rows cols "to" with
      | .error e => (data1, some e)
      | .ok r2 => convertLoop p (data1.set dn (.rows r2)) rows cols rest

/-- Translation of `DataProcessor.preprocess`.  The first component is the
final state of the caller's dictionary (mutated in place); the second is
the raised exception or the function's Python return value, which is `None`
(`none`) because the source is annotated `-> None` and has no return
statement. -/
def DataProcessor.preprocess (p : DataProcessor V) (data : DataMap V) :
    DataMap V × Except PyError (Option (DataMap V)) :=
  match p.add_label_fields_to_data data with
  | (data1, some e) => (data1, .error e)
  | (data1, none) =>
    match data1.get "image" with
    | none => (data1, .error (.keyError "image"))
    | some (.img i) =>
      match i.shape with
      | .error e => (data1, .error e)
      | .ok s =>
        match unpack2 (s.take 2) with
        | .error e => (data1, .error e)
        | .ok (rows, cols) =>
          match convertLoop p data1 rows cols p.data_fields with
          | (data2, none) => (data2, .ok none)
          | (data2, some e) => (data2, .error e)
    | some _ => (data1, .error (.attributeError "shape"))

/-- Loop of `postprocess` over `data_fields`: `filter`, then
`check_and_convert(..., direction="from")`, then store
`convert_to_original_type` of the result. -/
def postLoop (p : DataProcessor V) (data : DataMap V) (rows cols : Nat) :
    List String → DataMap V × Option PyError
  | [] => (data, none)
  | dn :: rest =>
    match data.getRows dn with
    | .error e => (data, some e)
    | .ok r =>
      let r1 := p.filter r rows cols dn
      match p.check_and_convert r1 rows cols "from" with
      | .error e => (data, some e)
      | .ok r2 => postLoop p (data.set dn (.rows (p.convert_to_original_type r2))) rows cols rest

/-- Translation of `DataProcessor.postprocess`.  On success the source
returns the same dictionary object it mutated, so the returned mapping is
the first component. -/
def DataProcessor.postprocess (p : DataProcessor V) (data : DataMap V) :
    DataMap V × Option PyError :=
  match data.get "image" with
  | none => (data, some (.keyError "image"))
  | some (.img i) =>
    match get_shape i with
    | .error e => (data, some e)
    | .ok s =>
      match unpack2 s with
      | .error e => (data, some e)
      | .ok (rows, cols) =>
        match postLoop p data rows cols p.data_fields with
        | (data1, none) => p.remove_label_fields_from_data data1
        | r => r
  | some _ =>
    (data, some (.runtimeError
      "Albumentations supports only numpy.ndarray and torch.Tensor data type for image. Got: list"))

/-- Internal batch value handled by `ensure_internal_format`.
Modelled from the spec: `BatchInternalType` and its `check_consistency()`
contract live in `core/types.py`, outside this slice; the outcome of
`check_consistency()` is modelled as data carried by the batch. -/
structure BatchInternal (V : Type u) where
  rows : List (List V)
  consistency : Except PyError Unit

/-- Result of calling `check_consistency()` on a batch. -/
def BatchInternal.check_consistency (b : BatchInternal V) : Except PyError Unit :=
  b.consistency

/-- Return value of a wrapped pipeline function: an internal batch or any
other Python object (only its printed type kept). -/
inductive PyObj (V : Type u) where
  | batch (b : BatchInternal V)
  | other (typename : String)

/-- Translation of `ensure_internal_format`: call the wrapped function,
then run `check_consistency()` on its return value when it is a
`BatchInternalType`, else raise a `TypeError` naming the function and the
offending type. -/
def ensure_internal_format (funcName : String)
    (func : PyObj V → Except PyError (PyObj V)) (data : PyObj V) :
    Except PyError (PyObj V) :=
  match func data with
  | .error e => .error e
  | .ok d =>
    match d with
    | .batch b =>
      match b.check_consistency with
      | .ok _ => .ok (.batch b)
      | .error e => .error e
    | .other t =>
      .error (.typeError
        ("The return from " ++ funcName ++ " should be a `BatchInternalType`, instead it returns a "
          ++ t ++ "."))

/-! ### Proof-side abbreviations and concrete instances -/

/-- Append each column of `cols`, in order, as a trailing cell of the rows:
the cumulative effect of the inner loop of `add_label_fields_to_data` on
one annotation collection. -/
def addCols (R : List (List V)) (cols : List (List V)) : List (List V) :=
  cols.foldl (fun acc c => List.zipWith (fun d v => d ++ [v]) acc c) R

/-- Label column currently stored under `g` (defaulting to `[]`), used to
state what `add_label_fields_to_data` appends. -/
def labelCol (data : DataMap V) (g : String) : List V :=
  match data.get g with
  | some (.col c) => c
  | _ => []

/-- Concrete processor for the spec's end-to-end example: canonical
sentinel format, one `"bboxes"` data field, one `"class_id"` label field,
pass-through kind-specific operations. -/
def exProcessor : DataProcessor Int where
  params := { format := "albumentations", label_fields := some ["class_id"] }
  data_fields := ["bboxes"]
  check := fun _ _ _ => .ok ()
  convert_to_albumentations := fun r _ _ => .ok r
  convert_from_albumentations := fun r _ _ => .ok r
  filter := fun r _ _ _ => r
  convert_to_internal_type := id
  convert_to_original_type := id

/-- Input mapping of the end-to-end example: one 100×200 image, one
bounding box, one class id. -/
def exData : DataMap Int :=
  ⟨[("image", .img (.ndarray [100, 200, 3])),
    ("bboxes", .rows [[10, 10, 50, 50]]),
    ("class_id", .col [3])]⟩

/-- State of the example mapping after `preprocess`. -/
def exMid : DataMap Int :=
  ⟨[("image", .img (.ndarray [100, 200, 3])),
    ("bboxes", .rows [[10, 10, 50, 50, 3]]),
    ("class_id", .col [3])]⟩

/-- State of the example mapping after `postprocess`. -/
def exOut : DataMap Int :=
  ⟨[("image", .img (.ndarray [100, 200, 3])),
    ("bboxes", .rows [[10, 10, 50, 50]]),
    ("class_id", .col [3])]⟩

/-- A processor with a non-canonical coordinate format. -/
def cocoProcessor : DataProcessor Int :=
  { exProcessor with params := { format := "coco", label_fields := some ["class_id"] } }

/-- A processor with two label fields, the second of which mismatches in
`mismatchData`. -/
def mismatchProcessor : DataProcessor Int :=
  { exProcessor with params := { format := "albumentations", label_fields := some ["a", "b"] } }

/-- One annotation row, a matching first label column `"a"`, and an empty
(length-mismatched) second label column `"b"`. -/
def mismatchData : DataMap Int :=
  ⟨[("image", .img (.ndarray [100, 200, 3])),
    ("bboxes", .rows [[1, 2]]),
    ("a", .col [7]),
    ("b", .col [])]⟩

/-- A processor whose `data_fields` holds the default name and one alias. -/
def twoFieldProcessor : DataProcessor Int :=
  { exProcessor with data_fields := ["bboxes", "bboxes2"] }

/-- Two merged annotation collections carrying different label columns
(`7` in `"bboxes"`, `9` in `"bboxes2"`). -/
def twoFieldData : DataMap Int :=
  ⟨[("image", .img (.ndarray [100, 200, 3])),
    ("bboxes", .rows [[1, 2, 7]]),
    ("bboxes2", .rows [[3, 4, 9]]),
    ("class_id", .col [7])]⟩

/-- A consistent internal batch. -/
def exBatch : BatchInternal Int where
  rows := [[1]]
  consistency := .ok ()

/-! ### Dictionary lemmas -/

theorem lookupEntry_setEntry_self (l : List (String × Entry V)) (k : String) (v : Entry V) :
    lookupEntry (setEntry l k v) k = some v := by
  induction l with
  | nil => simp [setEntry, lookupEntry]
  | cons hd tl ih =>
    obtain ⟨k0, v0⟩ := hd
    by_cases h : k0 = k
    · simp [setEntry, h, lookupEntry]
    · simp [setEntry, h, lookupEntry, ih]

theorem lookupEntry_setEntry_ne (l : List (String × Entry V)) {k k' : String} (v : Entry V)
    (h : k' ≠ k) : lookupEntry (setEntry l k v) k' = lookupEntry l k' := by
  induction l with
  | nil => simp [setEntry, lookupEntry, Ne.symm h]
  | cons hd tl ih =>
    obtain ⟨k0, v0⟩ := hd
    by_cases h0 : k0 = k
    · subst h0
      have hne : ¬k0 = k' := fun h' => h h'.symm
      simp [setEntry, lookupEntry, hne]
    · simp only [setEntry, if_neg h0, lookupEntry, ih]

theorem setEntry_setEntry_self (l : List (String × Entry V)) (k : String) (v w : Entry V) :
    setEntry (setEntry l k v) k w = setEntry l k w := by
  induction l with
  | nil => simp [setEntry]
  | cons hd tl ih =>
    obtain ⟨k0, v0⟩ := hd
    by_cases h : k0 = k
    · simp [setEntry, h]
    · simp [setEntry, h, ih]

theorem setEntry_of_lookupEntry (l : List (String × Entry V)) (k : String) (v : Entry V)
    (h : lookupEntry l k = some v) : setEntry l k v = l := by
  induction l with
  | nil => simp [lookupEntry] at h
  | cons hd tl ih =>
    obtain ⟨k0, v0⟩ := hd
    by_cases h0 : k0 = k
    · simp only [lookupEntry, if_pos h0] at h
      simp [setEntry, h0, ← Option.some_inj.mp h]
    · simp only [lookupEntry, if_neg h0] at h
      simp [setEntry, h0, ih h]

theorem DataMap.get_set_self (m : DataMap V) (k : String) (v : Entry V) :
    (m.set k v).get k = some v :=
  lookupEntry_setEntry_self m.entries k v

theorem DataMap.get_set_ne (m : DataMap V) {k k' : String} (v : Entry V) (h : k' ≠ k) :
    (m.set k v).get k' = m.get k' :=
  lookupEntry_setEntry_ne m.entries v h

theorem DataMap.set_set_self (m : DataMap V) (k : String) (v w : Entry V) :
    (m.set k v).set k w = m.set k w := by
  simp [DataMap.set, setEntry_setEntry_self]

theorem DataMap.set_of_get (m : DataMap V) (k : String) (v : Entry V)
    (h : m.get k = some v) : m.set k v = m := by
  have h1 : setEntry m.entries k v = m.entries := setEntry_of_lookupEntry m.entries k v h
  simp [DataMap.set, h1]

theorem DataMap.getRows_of_get {m : DataMap V} {k : String} {r : List (List V)}
    (h : m.get k = some (.rows r)) : m.getRows k = .ok r := by
  simp [DataMap.getRows, h]

theorem DataMap.getCol_of_get {m : DataMap V} {k : String} {c : List V}
    (h : m.get k = some (.col c)) : m.getCol k = .ok c := by
  simp [DataMap.getCol, h]

theorem DataMap.len_of_get_rows {m : DataMap V} {k : String} {r : List (List V)}
    (h : m.get k = some (.rows r)) : m.len k = .ok r.length := by
  simp [DataMap.len, h]

theorem DataMap.len_of_get_col {m : DataMap V} {k : String} {c : List V}
    (h : m.get k = some (.col c)) : m.len k = .ok c.length := by
  simp [DataMap.len, h]

/-! ### Pure row algebra

`addCols R cols` is the effect on the annotation rows `R` of appending, one
label field after the other, the label columns `cols` — exactly what the
inner loop of `add_label_fields_to_data` does to `data[data_name]`. -/

@[simp] theorem addCols_nil_cols (R : List (List V)) : addCols R [] = R := rfl

theorem addCols_cons_cols (R : List (List V)) (c : List V) (cs : List (List V)) :
    addCols R (c :: cs) = addCols (List.zipWith (fun d v => d ++ [v]) R c) cs := rfl

@[simp] theorem addCols_nil_rows (cols : List (List V)) : addCols [] cols = [] := by
  induction cols with
  | nil => rfl
  | cons c cs ih => simp [addCols_cons_cols, ih]

theorem addCols_length :
    ∀ (cols R : List (List V)), (∀ c ∈ cols, c.length = R.length) →
      (addCols R cols).length = R.length := by
  intro cols
  induction cols with
  | nil => simp
  | cons c cs ih =>
    intro R h
    rw [addCols_cons_cols]
    have hc : c.length = R.length := h c (by simp)
    have hz : (List.zipWith (fun d v => d ++ [v]) R c).length = R.length := by
      rw [List.length_zipWith, hc, Nat.min_self]
    rw [ih _ (fun c' hc' => by rw [hz]; exact h c' (by simp [hc'])), hz]

theorem addCols_cons_rows [Inhabited V] :
    ∀ (cols : List (List V)) (r : List V) (R : List (List V)),
      (∀ c ∈ cols, c.length = R.length + 1) →
      addCols (r :: R) cols =
        (r ++ cols.map (fun c => c.headI)) :: addCols R (cols.map (fun c => c.tail)) := by
  intro cols
  induction cols with
  | nil => simp
  | cons c cs ih =>
    intro r R h
    match c, h c (by simp) with
    | v :: vt, hc =>
      have hvt : vt.length = R.length := by simpa using hc
      rw [addCols_cons_cols, List.zipWith_cons_cons]
      have hz : (List.zipWith (fun d w => d ++ [w]) R vt).length = R.length := by
        rw [List.length_zipWith, hvt, Nat.min_self]
      rw [ih (r ++ [v]) (List.zipWith (fun d w => d ++ [w]) R vt)
        (fun c' hc' => by rw [hz]; exact h c' (by simp [hc']))]
      simp [addCols_cons_cols]

theorem pyIndex_append (r hs : List V) (idx : Nat) (c : V)
    (hget : hs.get? idx = some c) :
    pyIndex (r ++ hs) (-(hs.length : Int) + idx) = .ok c := by
  have hidx : idx < hs.length := by
    by_contra hcon
    rw [List.get?_eq_none.mpr (Nat.le_of_not_lt hcon)] at hget
    exact Option.noConfusion hget
  have hneg : (-(hs.length : Int) + idx) < 0 := by omega
  have hlen : ((r ++ hs).length : Int) = (r.length : Int) + hs.length := by
    simp
  unfold pyIndex
  rw [if_pos hneg]
  have hj : -(hs.length : Int) + idx + (r ++ hs).length = ((r.length + idx : Nat) : Int) := by
    rw [hlen]; push_cast; ring
  rw [hj]
  have h0 : (0 : Int) ≤ ((r.length + idx : Nat) : Int) := Int.natCast_nonneg _
  rw [if_pos h0, Int.toNat_natCast]
  have happ : (r ++ hs).get? (r.length + idx) = hs.get? idx := by
    rw [List.get?_append_right (Nat.le_add_right _ _)]
    congr 1
    omega
  rw [happ, hget]

theorem pyIndex_neg_ok (row : List V) (k idx : Nat) (hidx : idx < k)
    (hk : k ≤ row.length) : ∃ v, pyIndex row (-(k : Int) + idx) = .ok v := by
  have hneg : (-(k : Int) + idx) < 0 := by omega
  unfold pyIndex
  rw [if_pos hneg]
  have hj : -(k : Int) + idx + row.length = ((row.length - k + idx : Nat) : Int) := by
    push_cast [Nat.cast_sub hk]; ring
  rw [hj]
  have h0 : (0 : Int) ≤ ((row.length - k + idx : Nat) : Int) := Int.natCast_nonneg _
  rw [if_pos h0, Int.toNat_natCast]
  have hlt : row.length - k + idx < row.length := by omega
  exact ⟨row.get ⟨_, hlt⟩, by rw [List.get?_eq_get hlt]⟩

theorem extractColumn_addCols [Inhabited V] :
    ∀ (R cols : List (List V)) (k idx : Nat) (c0 : List V),
      cols.length = k → (∀ c ∈ cols, c.length = R.length) → cols.get? idx = some c0 →
      extractColumn (addCols R cols) k idx = .ok c0 := by
  intro R
  induction R with
  | nil =>
    intro cols k idx c0 _ hlen hget
    have hmem : c0 ∈ cols := List.get?_mem hget
    have : c0 = [] := List.eq_nil_of_length_eq_zero (by simpa using hlen c0 hmem)
    subst this
    simp [extractColumn]
  | cons r R ih =>
    intro cols k idx c0 hk hlen hget
    rw [addCols_cons_rows cols r R (fun c hc => by simpa using hlen c hc)]
    have hhead : (cols.map (fun c => c.headI)).get? idx = some c0.headI := by
      rw [List.get?_map, hget]; rfl
    have hklen : (cols.map (fun c => c.headI)).length = k := by simpa using hk
    have hpy := pyIndex_append r (cols.map (fun c => c.headI)) idx c0.headI hhead
    rw [hklen] at hpy
    have htail : extractColumn (addCols R (cols.map (fun c => c.tail))) k idx = .ok c0.tail := by
      refine ih (cols.map (fun c => c.tail)) k idx c0.tail (by simpa using hk) ?_ ?_
      · intro c' hc'
        obtain ⟨c, hc, rfl⟩ := List.mem_map.mp hc'
        have := hlen c hc
        simp at this ⊢
        omega
      · rw [List.get?_map, hget]; rfl
    have hc0 : c0.headI :: c0.tail = c0 := by
      have hmem : c0 ∈ cols := List.get?_mem hget
      match c0, hlen c0 hmem with
      | c :: ct, _ => rfl
    rw [extractColumn, hpy, htail]
    show Except.ok (c0.headI :: c0.tail) = Except.ok c0
    rw [hc0]

theorem truncate_addCols [Inhabited V] :
    ∀ (R cols : List (List V)), (∀ c ∈ cols, c.length = R.length) →
      (addCols R cols).map (fun d => d.take (d.length - cols.length)) = R := by
  intro R
  induction R with
  | nil => intro cols _; simp
  | cons r R ih =>
    intro cols hlen
    rw [addCols_cons_rows cols r R (fun c hc => by simpa using hlen c hc)]
    rw [List.map_cons]
    congr 1
    · have h1 : (r ++ cols.map (fun c => c.headI)).length - cols.length = r.length := by
        simp
      rw [h1, List.take_left]
    · have := ih (cols.map (fun c => c.tail)) (fun c' hc' => by
        obtain ⟨c, hc, rfl⟩ := List.mem_map.mp hc'
        have := hlen c hc
        simp at this ⊢
        omega)
      simpa using this

theorem extractColumn_isOk :
    ∀ (A : List (List V)) (k idx : Nat), idx < k → (∀ row ∈ A, k ≤ row.length) →
      ∃ c, extractColumn A k idx = .ok c := by
  intro A k idx hidx
  induction A with
  | nil => intro _; exact ⟨[], rfl⟩
  | cons row rest ih =>
    intro hlen
    obtain ⟨v, hv⟩ := pyIndex_neg_ok row k idx hidx (hlen row (by simp))
    obtain ⟨c, hc⟩ := ih (fun row' h' => hlen row' (by simp [h']))
    exact ⟨v :: c, by rw [extractColumn, hv, hc]⟩

/-! ### Characterization of the label-merge loops -/

theorem labelCol_of_get {data : DataMap V} {g : String} {c : List V}
    (h : data.get g = some (.col c)) : labelCol data g = c := by
  simp [labelCol, h]

theorem addLabelLoop_ok :
    ∀ (lfs : List String) (data : DataMap V) (f : String) (R : List (List V)),
      data.get f = some (.rows R) →
      f ∉ lfs →
      (∀ g ∈ lfs, ∃ c : List V, data.get g = some (.col c) ∧ c.length = R.length) →
      addLabelLoop data f lfs =
        (data.set f (.rows (addCols R (lfs.map (labelCol data)))), none) := by
  intro lfs
  induction lfs with
  | nil =>
    intro data f R hR _ _
    simp [addLabelLoop, DataMap.set_of_get data f _ hR]
  | cons g rest ih =>
    intro data f R hR hnf hcols
    obtain ⟨c, hc, hclen⟩ := hcols g (by simp)
    have hnf1 : f ∉ rest := fun h => hnf (by simp [h])
    have hstep : addLabelLoop data f (g :: rest) =
        addLabelLoop (data.set f (.rows (List.zipWith (fun d v => d ++ [v]) R c))) f rest := by
      simp [addLabelLoop, DataMap.len_of_get_rows hR, DataMap.len_of_get_col hc,
        DataMap.getRows_of_get hR, DataMap.getCol_of_get hc, hclen]
    set R1 := List.zipWith (fun d v => d ++ [v]) R c with hR1
    set data1 := data.set f (.rows R1) with hdata1
    have hR1len : R1.length = R.length := by
      rw [hR1, List.length_zipWith, hclen, Nat.min_self]
    have hget1 : data1.get f = some (.rows R1) := DataMap.get_set_self data f _
    have hrest : ∀ g' ∈ rest, ∃ c' : List V, data1.get g' = some (.col c') ∧
        c'.length = R1.length := by
      intro g' hg'
      have hgf : g' ≠ f := fun h => hnf1 (h ▸ hg')
      obtain ⟨c', hc', hlen'⟩ := hcols g' (by simp [hg'])
      exact ⟨c', by rw [hdata1, DataMap.get_set_ne data _ hgf]; exact hc', by
        rw [hlen', hR1len]⟩
    rw [hstep, ih data1 f R1 hget1 hnf1 hrest]
    have hmap : rest.map (labelCol data1) = rest.map (labelCol data) := by
      refine List.map_congr_left (fun g' hg' => ?_)
      have hgf : g' ≠ f := fun h => hnf1 (h ▸ hg')
      simp [labelCol, hdata1, DataMap.get_set_ne data _ hgf]
    rw [hmap, hdata1, DataMap.set_set_self]
    have hcons : (g :: rest).map (labelCol data) = c :: rest.map (labelCol data) := by
      simp [labelCol_of_get hc]
    rw [hcons, addCols_cons_cols]

theorem addLabelLoop_mismatch :
    ∀ (lfs : List String) (data : DataMap V) (f : String) (R : List (List V)),
      data.get f = some (.rows R) →
      f ∉ lfs →
      (∀ g ∈ lfs, ∃ c : List V, data.get g = some (.col c)) →
      (∃ g ∈ lfs, ∃ c : List V, data.get g = some (.col c) ∧ c.length ≠ R.length) →
      (addLabelLoop data f lfs).2 = some (.valueError "") := by
  intro lfs
  induction lfs with
  | nil =>
    intro data f R _ _ _ hmis
    obtain ⟨g, hg, _⟩ := hmis
    exact absurd hg (List.not_mem_nil g)
  | cons g rest ih =>
    intro data f R hR hnf hcols hmis
    obtain ⟨c, hc⟩ := hcols g (by simp)
    have hnf1 : f ∉ rest := fun h => hnf (by simp [h])
    by_cases hlen : c.length = R.length
    · have hstep : addLabelLoop data f (g :: rest) =
          addLabelLoop (data.set f (.rows (List.zipWith (fun d v => d ++ [v]) R c))) f rest := by
        simp [addLabelLoop, DataMap.len_of_get_rows hR, DataMap.len_of_get_col hc,
          DataMap.getRows_of_get hR, DataMap.getCol_of_get hc, hlen]
      set R1 := List.zipWith (fun d v => d ++ [v]) R c with hR1
      set data1 := data.set f (.rows R1) with hdata1
      have hR1len : R1.length = R.length := by
        rw [hR1, List.length_zipWith, hlen, Nat.min_self]
      have hget1 : data1.get f = some (.rows R1) := DataMap.get_set_self data f _
      have hrest : ∀ g' ∈ rest, ∃ c' : List V, data1.get g' = some (.col c') := by
        intro g' hg'
        have hgf : g' ≠ f := fun h => hnf1 (h ▸ hg')
        obtain ⟨c', hc'⟩ := hcols g' (by simp [hg'])
        exact ⟨c', by rw [hdata1, DataMap.get_set_ne data _ hgf]; exact hc'⟩
      have hmis1 : ∃ g' ∈ rest, ∃ c' : List V, data1.get g' = some (.col c') ∧
          c'.length ≠ R1.length := by
        obtain ⟨g0, hg0, c0, hc0, hne0⟩ := hmis
        rcases List.mem_cons.mp hg0 with h0 | h0
        · subst h0
          rw [hc] at hc0
          cases hc0
          exact absurd hlen (by simpa using hne0)
        · have hgf : g0 ≠ f := fun h => hnf1 (h ▸ h0)
          exact ⟨g0, h0, c0, by rw [hdata1, DataMap.get_set_ne data _ hgf]; exact hc0,
            by rw [hR1len]; exact hne0⟩
      rw [hstep]
      exact ih data1 f R1 hget1 hnf1 hrest hmis1
    · have hne : ¬R.length = c.length := fun h => hlen h.symm
      simp [addLabelLoop, DataMap.len_of_get_rows hR, DataMap.len_of_get_col hc, hne]

theorem addFieldsLoop_mismatch :
    ∀ (dfs : List String) (data : DataMap V) (lfs : List String),
      (∀ dn ∈ dfs, ∃ r : List (List V), data.get dn = some (.rows r)) →
      (∀ g ∈ lfs, ∃ c : List V, data.get g = some (.col c)) →
      (∀ dn ∈ dfs, dn ∉ lfs) →
      (∃ dn ∈ dfs, ∃ g ∈ lfs, ∃ (r : List (List V)) (c : List V),
        data.get dn = some (.rows r) ∧ data.get g = some (.col c) ∧ r.length ≠ c.length) →
      (addFieldsLoop data lfs dfs).2 = some (.valueError "") := by
  intro dfs
  induction dfs with
  | nil =>
    intro data lfs _ _ _ hmis
    obtain ⟨dn, hdn, _⟩ := hmis
    exact absurd hdn (List.not_mem_nil dn)
  | cons dn rest ih =>
    intro data lfs hrows hcols hdisj hmis
    obtain ⟨R, hR⟩ := hrows dn (by simp)
    have hnf : dn ∉ lfs := hdisj dn (by simp)
    by_cases hloc : ∃ g ∈ lfs, ∃ c : List V, data.get g = some (.col c) ∧ c.length ≠ R.length
    · have herr := addLabelLoop_mismatch lfs data dn R hR hnf (fun g hg => hcols g hg) hloc
      rcases hpair : addLabelLoop data dn lfs with ⟨d1, e1⟩
      rw [hpair] at herr
      simp only at herr
      subst herr
      simp [addFieldsLoop, hpair]
    · push_neg at hloc
      have hall : ∀ g ∈ lfs, ∃ c : List V, data.get g = some (.col c) ∧ c.length = R.length := by
        intro g hg
        obtain ⟨c, hc⟩ := hcols g hg
        exact ⟨c, hc, hloc g hg c hc⟩
      have hok := addLabelLoop_ok lfs data dn R hR hnf hall
      set A := addCols R (lfs.map (labelCol data)) with hA
      have hAlen : A.length = R.length := by
        rw [hA]
        refine addCols_length _ _ (fun c' hc' => ?_)
        obtain ⟨g, hg, rfl⟩ := List.mem_map.mp hc'
        obtain ⟨c, hc, hcl⟩ := hall g hg
        rw [labelCol_of_get hc, hcl]
      set data1 := data.set dn (.rows A) with hdata1
      have hstep : addFieldsLoop data lfs (dn :: rest) = addFieldsLoop data1 lfs rest := by
        simp [addFieldsLoop, hok]
      rw [hstep]
      have hget1 : ∀ k : String, k ≠ dn → data1.get k = data.get k := by
        intro k hk
        rw [hdata1, DataMap.get_set_ne data _ hk]
      refine ih data1 lfs ?_ ?_ ?_ ?_
      · intro dn' hdn'
        by_cases h : dn' = dn
        · subst h
          exact ⟨A, DataMap.get_set_self data _ _⟩
        · obtain ⟨r', hr'⟩ := hrows dn' (by simp [hdn'])
          exact ⟨r', by rw [hget1 dn' h]; exact hr'⟩
      · intro g hg
        obtain ⟨c, hc⟩ := hcols g hg
        have hgdn : g ≠ dn := fun h => hnf (h ▸ hg)
        exact ⟨c, by rw [hget1 g hgdn]; exact hc⟩
      · intro dn' hdn'
        exact hdisj dn' (by simp [hdn'])
      · obtain ⟨dn0, hdn0, g0, hg0, r0, c0, hr0, hc0, hne0⟩ := hmis
        have hg0dn : g0 ≠ dn := fun h => hnf (h ▸ hg0)
        rcases List.mem_cons.mp hdn0 with h0 | h0
        · subst h0
          rw [hR] at hr0
          cases hr0
          exact absurd (hloc g0 hg0 c0 hc0).symm (by simpa using hne0)
        · by_cases h : dn0 = dn
          · subst h
            rw [hR] at hr0
            cases hr0
            refine ⟨dn0, h0, g0, hg0, A, c0, DataMap.get_set_self data _ _,
              by rw [hget1 g0 hg0dn]; exact hc0, by rw [hAlen]; exact hne0⟩
          · exact ⟨dn0, h0, g0, hg0, r0, c0, by rw [hget1 dn0 h]; exact hr0,
              by rw [hget1 g0 hg0dn]; exact hc0, hne0⟩

/-! ### Characterization of the label-split loops -/

theorem removeInnerLoop_ok :
    ∀ (ps : List (Nat × String)) (data : DataMap V) (f : String) (A : List (List V)) (k : Nat),
      data.get f = some (.rows A) →
      (∀ q ∈ ps, q.2 ≠ f) →
      (ps.map Prod.snd).Nodup →
      (∀ q ∈ ps, ∃ c : List V, extractColumn A k q.1 = .ok c) →
      ∃ data1,
        removeInnerLoop data f k ps = (data1, none) ∧
        data1.get f = some (.rows A) ∧
        (∀ g, g ∉ ps.map Prod.snd → data1.get g = data.get g) ∧
        (∀ q ∈ ps, ∀ c : List V, extractColumn A k q.1 = .ok c →
          data1.get q.2 = some (.col c)) := by
  intro ps
  induction ps with
  | nil =>
    intro data f A k hA _ _ _
    exact ⟨data, rfl, hA, fun _ _ => rfl, fun q hq => absurd hq (List.not_mem_nil q)⟩
  | cons q rest ih =>
    intro data f A k hA hne hnd hext
    obtain ⟨idx, g⟩ := q
    obtain ⟨c, hc⟩ := hext (idx, g) (by simp)
    have hgf : g ≠ f := hne (idx, g) (by simp)
    have hstep : removeInnerLoop data f k ((idx, g) :: rest) =
        removeInnerLoop (data.set g (.col c)) f k rest := by
      simp [removeInnerLoop, DataMap.getRows_of_get hA, hc]
    set data2 := data.set g (.col c) with hdata2
    have hA2 : data2.get f = some (.rows A) := by
      rw [hdata2, DataMap.get_set_ne data _ (Ne.symm hgf)]; exact hA
    have hgrest : g ∉ rest.map Prod.snd := by
      have := hnd
      simp only [List.map_cons, List.nodup_cons] at this
      exact this.1
    obtain ⟨data1, heq, hf1, hunch, hlab⟩ :=
      ih data2 f A k hA2 (fun q' hq' => hne q' (by simp [hq']))
        (by simpa using (List.nodup_cons.mp (by simpa using hnd)).2)
        (fun q' hq' => hext q' (by simp [hq']))
    refine ⟨data1, by rw [hstep, heq], hf1, ?_, ?_⟩
    · intro g' hg'
      have hg'g : g' ≠ g := by
        intro h
        exact hg' (by simp [h])
      have hg'rest : g' ∉ rest.map Prod.snd := by
        intro h
        exact hg' (by simp [h])
      rw [hunch g' hg'rest, hdata2, DataMap.get_set_ne data _ hg'g]
    · intro q' hq' c' hc'
      rcases List.mem_cons.mp hq' with h0 | h0
      · subst h0
        rw [hc] at hc'
        cases hc'
        rw [hunch g hgrest, hdata2, DataMap.get_set_self]
      · exact hlab q' h0 c' hc'

theorem removeFromField_ok :
    ∀ (data : DataMap V) (f : String) (lfs : List String) (A : List (List V)),
      data.get f = some (.rows A) → f ∉ lfs → lfs ≠ [] → lfs.Nodup →
      (∀ q ∈ lfs.enum, ∃ c : List V, extractColumn A lfs.length q.1 = .ok c) →
      ∃ data1,
        removeFromField data f lfs = (data1, none) ∧
        data1.get f = some (.rows (A.map (fun d => d.take (d.length - lfs.length)))) ∧
        (∀ q ∈ lfs.enum, ∀ c : List V, extractColumn A lfs.length q.1 = .ok c →
          data1.get q.2 = some (.col c)) ∧
        (∀ g, g ∉ lfs → g ≠ f → data1.get g = data.get g) := by
  intro data f lfs A hA hnf hne hnd hext
  have hsnd : lfs.enum.map Prod.snd = lfs := List.enum_map_snd lfs
  have hqf : ∀ q ∈ lfs.enum, q.2 ≠ f := by
    intro q hq h
    exact hnf (by rw [← hsnd]; exact h ▸ List.mem_map_of_mem Prod.snd hq)
  obtain ⟨dataM, heq, hfM, hunchM, hlabM⟩ :=
    removeInnerLoop_ok lfs.enum data f A lfs.length hA hqf (by rw [hsnd]; exact hnd) hext
  have hk : lfs.length ≠ 0 := fun h => hne (List.eq_nil_of_length_eq_zero h)
  refine ⟨dataM.set f (.rows (A.map (fun d => d.take (d.length - lfs.length)))), ?_, ?_, ?_, ?_⟩
  · simp [removeFromField, heq, hk, DataMap.getRows_of_get hfM]
  · exact DataMap.get_set_self dataM _ _
  · intro q hq c hc
    have hq2 : q.2 ≠ f := hqf q hq
    rw [DataMap.get_set_ne dataM _ hq2]
    exact hlabM q hq c hc
  · intro g hg hgf
    rw [DataMap.get_set_ne dataM _ hgf]
    exact hunchM g (by rw [hsnd]; exact hg)

theorem removeFieldsLoop_ok :
    ∀ (dfs : List String) (data : DataMap V) (lfs : List String),
      lfs ≠ [] → lfs.Nodup →
      (∀ dn ∈ dfs, dn ∉ lfs) → dfs.Nodup →
      (∀ dn ∈ dfs, ∃ r : List (List V), data.get dn = some (.rows r) ∧
        ∀ row ∈ r, lfs.length ≤ row.length) →
      ∃ data1, removeFieldsLoop data lfs dfs = (data1, none) ∧
        (∀ g, g ∉ lfs → g ∉ dfs → data1.get g = data.get g) ∧
        (dfs = [] → data1 = data) ∧
        (∀ front fl, dfs = front ++ [fl] →
          ∀ R : List (List V), data.get fl = some (.rows R) →
          ∀ q ∈ lfs.enum, ∀ c : List V, extractColumn R lfs.length q.1 = .ok c →
            data1.get q.2 = some (.col c)) := by
  intro dfs
  induction dfs with
  | nil =>
    intro data lfs _ _ _ _ _
    refine ⟨data, rfl, fun _ _ _ => rfl, fun _ => rfl, ?_⟩
    intro front fl h
    exact absurd h (by simp)
  | cons dn rest ih =>
    intro data lfs hne hnd hdisj hnodd hrows
    obtain ⟨A, hA, hbound⟩ := hrows dn (by simp)
    have hnf : dn ∉ lfs := hdisj dn (by simp)
    have hidxlt : ∀ q ∈ lfs.enum, q.1 < lfs.length := by
      intro q hq
      have := List.mem_enum_iff_get?.mp hq
      by_contra hcon
      rw [List.get?_eq_none.mpr (Nat.le_of_not_lt hcon)] at this
      exact Option.noConfusion this
    have hext : ∀ q ∈ lfs.enum, ∃ c : List V, extractColumn A lfs.length q.1 = .ok c :=
      fun q hq => extractColumn_isOk A lfs.length q.1 (hidxlt q hq) hbound
    obtain ⟨dataM, heqM, hfM, hlabM, hunchM⟩ :=
      removeFromField_ok data dn lfs A hA hnf hne hnd hext
    have hdnrest : dn ∉ rest := (List.nodup_cons.mp hnodd).1
    have hstep : removeFieldsLoop data lfs (dn :: rest) = removeFieldsLoop dataM lfs rest := by
      simp [removeFieldsLoop, heqM]
    obtain ⟨data1, heq1, hunch1, hnil1, hlast1⟩ :=
      ih dataM lfs hne hnd (fun dn' h => hdisj dn' (by simp [h])) (List.nodup_cons.mp hnodd).2
        (by
          intro dn' hdn'
          obtain ⟨r', hr', hb'⟩ := hrows dn' (by simp [hdn'])
          have hdn'dn : dn' ≠ dn := fun h => hdnrest (h ▸ hdn')
          have hdn'lfs : dn' ∉ lfs := hdisj dn' (by simp [hdn'])
          exact ⟨r', by rw [hunchM dn' hdn'lfs hdn'dn]; exact hr', hb'⟩)
    refine ⟨data1, by rw [hstep, heq1], ?_, ?_, ?_⟩
    · intro g hg hgd
      have hgdn : g ≠ dn := fun h => hgd (by simp [h])
      have hgrest : g ∉ rest := fun h => hgd (by simp [h])
      rw [hunch1 g hg hgrest, hunchM g hg hgdn]
    · intro h
      exact absurd h (by simp)
    · intro front fl hsplit R hR q hq c hc
      rcases rest.eq_nil_or_concat with hrest | ⟨front', fl', hrest⟩
      · subst hrest
        rcases front with _ | ⟨x, xs⟩
        · simp only [List.nil_append, List.cons.injEq] at hsplit
          obtain ⟨hdnfl, -⟩ := hsplit
          obtain rfl : fl = dn := hdnfl.symm
          rw [hnil1 rfl]
          rw [hR] at hA
          cases hA
          exact hlabM q hq c hc
        · exfalso
          simp only [List.cons_append, List.cons.injEq] at hsplit
          obtain ⟨-, habs⟩ := hsplit
          exact absurd habs.symm (by simp)
      · rw [List.concat_eq_append] at hrest
        subst hrest
        rcases front with _ | ⟨x, xs⟩
        · exfalso
          have hlen := congrArg List.length hsplit
          simp at hlen
        · simp only [List.cons_append, List.cons.injEq] at hsplit
          obtain ⟨hx, hxs⟩ := hsplit
          obtain ⟨hxs1, hxs2⟩ := List.append_inj' hxs rfl
          have hflfl : fl' = fl := by simpa using hxs2
          have hflrest : fl ∈ front' ++ [fl'] := by simp [hflfl]
          have hfldn : fl ≠ dn := fun h => hdnrest (h ▸ hflrest)
          have hfllfs : fl ∉ lfs := hdisj fl (List.mem_cons_of_mem dn hflrest)
          refine hlast1 front' fl (by rw [hflfl]) R ?_ q hq c hc
          rw [hunchM fl hfllfs hfldn]
          exact hR

/-! ### Claim theorems -/

/-- C3: when `params.format` is the canonical sentinel `"albumentations"`,
`check_and_convert` is the identity on the rows for both `direction="to"`
and `direction="from"`: only `check` runs and the rows come back
unchanged. -/
theorem check_and_convert_canonical_identity (p : DataProcessor V)
    (rows : List (List V)) (h w : Nat)
    (hfmt : p.params.format = "albumentations")
    (hchk : p.check rows h w = .ok ()) :
    p.check_and_convert rows h w "to" = .ok rows ∧
    p.check_and_convert rows h w "from" = .ok rows := by
  constructor <;> simp [DataProcessor.check_and_convert, hfmt, hchk]

/-- C4: for every non-canonical format, `check_and_convert` with a
direction other than `"to"` or `"from"` always fails with a `ValueError`. -/
theorem check_and_convert_invalid_direction (p : DataProcessor V)
    (rows : List (List V)) (h w : Nat) (direction : String)
    (hfmt : p.params.format ≠ "albumentations")
    (hto : direction ≠ "to") (hfrom : direction ≠ "from") :
    p.check_and_convert rows h w direction =
      .error (.valueError
        ("Invalid direction. Must be `to` or `from`. Got `" ++ direction ++ "`")) := by
  simp [DataProcessor.check_and_convert, hfmt, hto, hfrom]

/-- C5: `add_label_fields_to_data` raises a `ValueError` whenever some data
field and some declared label field hold collections of different
lengths. -/
theorem add_label_fields_length_mismatch (p : DataProcessor V) (data : DataMap V)
    (lfs : List String)
    (hp : p.params.label_fields = some lfs)
    (hrows : ∀ dn ∈ p.data_fields, ∃ r : List (List V), data.get dn = some (.rows r))
    (hcols : ∀ g ∈ lfs, ∃ c : List V, data.get g = some (.col c))
    (hdisj : ∀ dn ∈ p.data_fields, dn ∉ lfs)
    (hmis : ∃ dn ∈ p.data_fields, ∃ g ∈ lfs, ∃ (r : List (List V)) (c : List V),
      data.get dn = some (.rows r) ∧ data.get g = some (.col c) ∧ r.length ≠ c.length) :
    (p.add_label_fields_to_data data).2 = some (.valueError "") := by
  simp only [DataProcessor.add_label_fields_to_data, hp]
  exact addFieldsLoop_mismatch p.data_fields data lfs hrows hcols hdisj hmis

/-- C6: `get_shape` returns the first two dimensions of a numpy image and
the last two dimensions of a tensor image, and fails with a `RuntimeError`
naming the offending type for any other input. -/
theorem get_shape_spec :
    (∀ (h w : Nat) (rest : List Nat), get_shape (.ndarray (h :: w :: rest)) = .ok [h, w]) ∧
    (∀ (s : List Nat) (h w : Nat), get_shape (.tensor (s ++ [h, w])) = .ok [h, w]) ∧
    (∀ t : String, get_shape (.other t) = .error (.runtimeError
      ("Albumentations supports only numpy.ndarray and torch.Tensor data type for image. Got: "
        ++ t))) := by
  refine ⟨fun h w rest => rfl, fun s h w => ?_, fun t => rfl⟩
  have h1 : (s ++ [h, w]).length - 2 = s.length := by simp
  rw [get_shape, h1, List.drop_left]

/-- C8: `ensure_internal_format` runs `check_consistency()` on the wrapped
function's return value before handing it back (its failure propagates, its
success yields the batch), and raises a `TypeError` whenever the return
value is not a `BatchInternalType`. -/
theorem ensure_internal_format_contract (funcName : String)
    (func : PyObj V → Except PyError (PyObj V)) (data : PyObj V) :
    (∀ b : BatchInternal V, func data = .ok (.batch b) → b.check_consistency = .ok () →
      ensure_internal_format funcName func data = .ok (.batch b)) ∧
    (∀ (b : BatchInternal V) (e : PyError), func data = .ok (.batch b) →
      b.check_consistency = .error e →
      ensure_internal_format funcName func data = .error e) ∧
    (∀ t : String, func data = .ok (.other t) →
      ensure_internal_format funcName func data = .error (.typeError
        ("The return from " ++ funcName ++ " should be a `BatchInternalType`, instead it returns a "
          ++ t ++ "."))) := by
  refine ⟨fun b hf hc => ?_, fun b e hf hc => ?_, fun t hf => ?_⟩
  · simp [ensure_internal_format, hf, hc]
  · simp [ensure_internal_format, hf, hc]
  · simp [ensure_internal_format, hf]

/-- C1: merging label columns with `add_label_fields_to_data` and then
splitting them with `remove_label_fields_from_data` (with no geometric
conversion in between) restores the annotation field to the original rows
`R` and leaves every label field unchanged, whenever every label column has
the same length as `R`. -/
theorem add_remove_label_fields_roundtrip [Inhabited V] (p : DataProcessor V)
    (f : String) (lfs : List String) (R : List (List V)) (data : DataMap V)
    (hp : p.params.label_fields = some lfs)
    (hd : p.data_fields = [f])
    (hnd : (f :: lfs).Nodup)
    (hR : data.get f = some (.rows R))
    (hL : ∀ g ∈ lfs, ∃ L : List V, data.get g = some (.col L) ∧ L.length = R.length) :
    ∃ data1 data2 : DataMap V,
      p.add_label_fields_to_data data = (data1, none) ∧
      p.remove_label_fields_from_data data1 = (data2, none) ∧
      data2.get f = some (.rows R) ∧
      ∀ g ∈ lfs, data2.get g = data.get g := by
  have hnf : f ∉ lfs := (List.nodup_cons.mp hnd).1
  have hlnd : lfs.Nodup := (List.nodup_cons.mp hnd).2
  set cols := lfs.map (labelCol data) with hcolsdef
  have hcolslen : ∀ c ∈ cols, c.length = R.length := by
    intro c hc
    obtain ⟨g, hg, rfl⟩ := List.mem_map.mp hc
    obtain ⟨L, hgL, hLlen⟩ := hL g hg
    rw [labelCol_of_get hgL, hLlen]
  have hadd : p.add_label_fields_to_data data = (data.set f (.rows (addCols R cols)), none) := by
    have hloop := addLabelLoop_ok lfs data f R hR hnf hL
    simp [DataProcessor.add_label_fields_to_data, hp, hd, addFieldsLoop, hloop, hcolsdef]
  set A := addCols R cols with hAdef
  set data1 := data.set f (.rows A) with hdata1
  have hA1 : data1.get f = some (.rows A) := DataMap.get_set_self data f _
  rcases Decidable.em (lfs = []) with hlfsnil | hlfsne
  · subst hlfsnil
    refine ⟨data1, data1, hadd, ?_, ?_, by simp⟩
    · simp [DataProcessor.remove_label_fields_from_data, hp, hd, removeFieldsLoop,
        removeFromField, removeInnerLoop]
    · rw [hA1, hAdef, hcolsdef]
      simp
  · have hext : ∀ q ∈ lfs.enum, ∃ c : List V, extractColumn A lfs.length q.1 = .ok c := by
      intro q hq
      have hget := List.mem_enum_iff_get?.mp hq
      have hcget : cols.get? q.1 = some (labelCol data q.2) := by
        rw [hcolsdef, List.get?_map, hget]
        rfl
      exact ⟨labelCol data q.2,
        extractColumn_addCols R cols lfs.length q.1 (labelCol data q.2)
          (by simp [hcolsdef]) hcolslen hcget⟩
    obtain ⟨data2, hrem, hf2, hlab2, hunch2⟩ :=
      removeFromField_ok data1 f lfs A hA1 hnf hlfsne hlnd hext
    refine ⟨data1, data2, hadd, ?_, ?_, ?_⟩
    · simp [DataProcessor.remove_label_fields_from_data, hp, hd, removeFieldsLoop, hrem]
    · rw [hf2]
      have htr : A.map (fun d => d.take (d.length - lfs.length)) = R := by
        have := truncate_addCols R cols hcolslen
        rw [hAdef]
        have hclen : cols.length = lfs.length := by simp [hcolsdef]
        rw [← hclen]
        exact this
      rw [htr]
    · intro g hg
      obtain ⟨idx, hidx⟩ := List.mem_iff_get?.mp hg
      have hqenum : (idx, g) ∈ lfs.enum := List.mem_enum_iff_get?.mpr hidx
      have hcget : cols.get? idx = some (labelCol data g) := by
        rw [hcolsdef, List.get?_map, hidx]
        rfl
      have hextg : extractColumn A lfs.length idx = .ok (labelCol data g) :=
        extractColumn_addCols R cols lfs.length idx (labelCol data g)
          (by simp [hcolsdef]) hcolslen hcget
      have := hlab2 (idx, g) hqenum (labelCol data g) hextg
      obtain ⟨L, hgL, hLlen⟩ := hL g hg
      rw [this, hgL, labelCol_of_get hgL]

/-- C2 (amended): `preprocess` mutates the caller's mapping in place (the
first component of the embedding is the final dictionary state) but its
Python return value is always `None`, not the mapping. -/
theorem preprocess_returns_none (p : DataProcessor V) (data st : DataMap V)
    (r : Option (DataMap V)) (h : p.preprocess data = (st, .ok r)) : r = none := by
  unfold DataProcessor.preprocess at h
  repeat' split at h
  all_goals simp_all

/-- C2 (counterexample): on the end-to-end example the claim "preprocess
also returns the caller's mapping" fails — the dictionary is mutated to
`exMid` but the return value is `None`, not `exMid`. -/
theorem preprocess_return_value_cex :
    exProcessor.preprocess exData = (exMid, .ok none) ∧
    (Except.ok (some exMid) : Except PyError (Option (DataMap Int))) ≠ .ok none :=
  ⟨rfl, fun hcon => Option.noConfusion (Except.ok.inj hcon)⟩

/-- C7: on one 100×200 image with `bboxes = [[10,10,50,50]]` and
`class_id = [3]` under the canonical sentinel format, `preprocess` stores
the merged internal row set `[[10,10,50,50,3]]`, and after an identity
external transform `postprocess` restores `bboxes = [[10,10,50,50]]` and
`class_id = [3]`. -/
theorem preprocess_postprocess_example :
    exProcessor.preprocess exData = (exMid, .ok none) ∧
    exMid.get "bboxes" = some (.rows [[10, 10, 50, 50, 3]]) ∧
    exProcessor.postprocess exMid = (exOut, none) ∧
    exOut.get "bboxes" = some (.rows [[10, 10, 50, 50]]) ∧
    exOut.get "class_id" = some (.col [3]) :=
  ⟨rfl, rfl, rfl, rfl, rfl⟩

/-- C9: with several data fields and non-empty label fields,
`remove_label_fields_from_data` overwrites each label field once per data
field, so every label field ends up holding the column extracted from the
last data field's rows. -/
theorem remove_label_fields_last_field_wins (p : DataProcessor V) (data : DataMap V)
    (lfs front : List String) (fl : String) (Rlast : List (List V))
    (hp : p.params.label_fields = some lfs)
    (hd : p.data_fields = front ++ [fl])
    (hfront : front ≠ [])
    (hlfs : lfs ≠ []) (hlnd : lfs.Nodup)
    (hnodd : (front ++ [fl]).Nodup)
    (hdisj : ∀ dn ∈ front ++ [fl], dn ∉ lfs)
    (hrows : ∀ dn ∈ front ++ [fl], ∃ r : List (List V), data.get dn = some (.rows r) ∧
      ∀ row ∈ r, lfs.length ≤ row.length)
    (hlast : data.get fl = some (.rows Rlast)) :
    ∃ data1, p.remove_label_fields_from_data data = (data1, none) ∧
      ∀ q ∈ lfs.enum, ∃ c : List V, extractColumn Rlast lfs.length q.1 = .ok c ∧
        data1.get q.2 = some (.col c) := by
  obtain ⟨data1, heq, hunch, hnil, hlastC⟩ :=
    removeFieldsLoop_ok (front ++ [fl]) data lfs hlfs hlnd hdisj hnodd hrows
  refine ⟨data1, by simp [DataProcessor.remove_label_fields_from_data, hp, hd, heq], ?_⟩
  intro q hq
  have hidxlt : q.1 < lfs.length := by
    have hmem := List.mem_enum_iff_get?.mp hq
    by_contra hcon
    rw [List.get?_eq_none.mpr (Nat.le_of_not_lt hcon)] at hmem
    exact Option.noConfusion hmem
  obtain ⟨Rl, hRl, hbl⟩ := hrows fl (by simp)
  rw [hlast] at hRl
  cases hRl
  obtain ⟨c, hc⟩ := extractColumn_isOk Rlast lfs.length q.1 hidxlt hbl
  exact ⟨c, hc, hlastC front fl rfl Rlast hlast q hq c hc⟩

/-- C10: `add_label_fields_to_data` is not atomic — on the mismatched
second label field it raises the `ValueError` only after the first label
column has already been appended to the caller's annotation rows, leaving
the mapping partially mutated. -/
theorem add_label_fields_not_atomic :
    (mismatchProcessor.add_label_fields_to_data mismatchData).2 = some (.valueError "") ∧
    (mismatchProcessor.add_label_fields_to_data mismatchData).1.get "bboxes" =
      some (.rows [[1, 2, 7]]) ∧
    mismatchData.get "bboxes" = some (.rows [[1, 2]]) :=
  ⟨rfl, rfl, rfl⟩

/-! ### Witnesses -/

theorem add_remove_label_fields_roundtrip_witness :
    ∃ data1 data2 : DataMap Int,
      exProcessor.add_label_fields_to_data exData = (data1, none) ∧
      exProcessor.remove_label_fields_from_data data1 = (data2, none) ∧
      data2.get "bboxes" = some (.rows [[10, 10, 50, 50]]) ∧
      ∀ g ∈ ["class_id"], data2.get g = exData.get g :=
  add_remove_label_fields_roundtrip exProcessor "bboxes" ["class_id"]
    [[10, 10, 50, 50]] exData rfl rfl (by decide) rfl
    (by
      intro g hg
      simp at hg
      subst hg
      exact ⟨[3], rfl, rfl⟩)

theorem preprocess_returns_none_witness : (none : Option (DataMap Int)) = none :=
  preprocess_returns_none exProcessor exData exMid none rfl

theorem check_and_convert_canonical_identity_witness :
    exProcessor.check_and_convert [[1, 2]] 5 6 "to" = .ok [[1, 2]] ∧
    exProcessor.check_and_convert [[1, 2]] 5 6 "from" = .ok [[1, 2]] :=
  check_and_convert_canonical_identity exProcessor [[1, 2]] 5 6 rfl rfl

theorem check_and_convert_invalid_direction_witness :
    cocoProcessor.check_and_convert [[1, 2]] 5 6 "sideways" =
      .error (.valueError
        ("Invalid direction. Must be `to` or `from`. Got `" ++ "sideways" ++ "`")) :=
  check_and_convert_invalid_direction cocoProcessor [[1, 2]] 5 6 "sideways"
    (by decide) (by decide) (by decide)

theorem add_label_fields_length_mismatch_witness :
    (mismatchProcessor.add_label_fields_to_data mismatchData).2 =
      some (.valueError "") :=
  add_label_fields_length_mismatch mismatchProcessor mismatchData ["a", "b"] rfl
    (by
      intro dn hdn
      simp [mismatchProcessor, exProcessor] at hdn
      subst hdn
      exact ⟨[[1, 2]], rfl⟩)
    (by
      intro g hg
      simp at hg
      rcases hg with rfl | rfl
      · exact ⟨[7], rfl⟩
      · exact ⟨[], rfl⟩)
    (by decide)
    ⟨"bboxes", by simp [mismatchProcessor, exProcessor], "b", by simp,
      [[1, 2]], [], rfl, rfl, by decide⟩

theorem ensure_internal_format_contract_witness :
    ensure_internal_format "fn" (fun _ => .ok (.batch exBatch)) (.other "start") =
      .ok (.batch exBatch) ∧
    ensure_internal_format "fn" (fun _ => .ok (.other "int"))
        ((.other "start") : PyObj Int) =
      .error (.typeError
        ("The return from " ++ "fn" ++ " should be a `BatchInternalType`, instead it returns a "
          ++ "int" ++ ".")) :=
  ⟨(ensure_internal_format_contract "fn" (fun _ => .ok (.batch exBatch)) (.other "start")).1
      exBatch rfl rfl,
   (ensure_internal_format_contract "fn" (fun _ => .ok (.other "int"))
      ((.other "start") : PyObj Int)).2.2 "int" rfl⟩

theorem remove_label_fields_last_field_wins_witness :
    ∃ data1 : DataMap Int,
      twoFieldProcessor.remove_label_fields_from_data twoFieldData = (data1, none) ∧
      ∀ q ∈ (["class_id"] : List String).enum, ∃ c : List Int,
        extractColumn [[3, 4, 9]] (["class_id"] : List String).length q.1 = .ok c ∧
        data1.get q.2 = some (.col c) :=
  remove_label_fields_last_field_wins twoFieldProcessor twoFieldData ["class_id"]
    ["bboxes"] "bboxes2" [[3, 4, 9]] rfl rfl (by decide) (by decide) (by decide)
    (by decide) (by decide)
    (by
      intro dn hdn
      simp at hdn
      rcases hdn with rfl | rfl
      · exact ⟨[[1, 2, 7]], rfl, by decide⟩
      · exact ⟨[[3, 4, 9]], rfl, by decide⟩)
    rfl

end Albu
